import Mathlib

/-!
Health-check engine of Clash.Meta: scheduler, debounce guard, probe round, on-demand trigger

Shallow embedding of

* `adapter/provider/healthcheck.go`: `HealthCheck`, `process`, `setProxy`, `auto`, `touch`,
  `check`, `close`, `NewHealthCheck`;
* `hub/route/groups.go`: `getGroupDelay`.

Conventions of the embedding.

* Go `uint` is the 64-bit unsigned type and is carried as a `Nat`; `int64` values are carried
  as `Int`, and every conversion or arithmetic step that Go performs modulo `2^64` is written
  with `wrap64`.
* Go strings are `String`; byte-wise scans work on the character list of the string.
* A channel is represented by the number of values waiting in its buffer.
* Effects on the outside world (probes sent to proxies) are recorded in an explicit log.
-/

namespace Clash

set_option maxRecDepth 8000

/-! ## Machine integers -/

/-- Two's-complement reading of an integer kept modulo `2^64`: the value an `int64` holds
after Go's wrapping conversion or arithmetic. -/
def wrap64 (z : Int) : Int := (z + 2 ^ 63) % 2 ^ 64 - 2 ^ 63

/-- Conversion `int64(u)` of a `uint`. -/
def int64OfUint (u : Nat) : Int := wrap64 (u : Int)

/-- Subtraction `a - b` on `int64`. -/
def sub64 (a b : Int) : Int := wrap64 (a - b)

/-- Multiplication `a * b` on `int64` (also the `time.Duration` product). -/
def mul64 (a b : Int) : Int := wrap64 (a * b)

/-- Nanoseconds in `time.Second`. -/
def Second : Int := 1000000000

/-- Nanoseconds in `time.Millisecond`. -/
def Millisecond : Int := 1000000

/-- The constant `defaultURLTestTimeout = time.Second * 5`. -/
def defaultURLTestTimeout : Int := mul64 Second 5

/-! ## Strings -/

/-- Pieces of a character list between occurrences of the separator. -/
def splitChars (sep : Char) : List Char → List (List Char)
  | [] => [[]]
  | c :: cs =>
    if c = sep then [] :: splitChars sep cs
    else
      match splitChars sep cs with
      | [] => [[c]]
      | w :: ws => (c :: w) :: ws

/-- Go `strings.Split(s, sep)` for a one-character separator: the substrings between the
separators; a string without separator (the empty string included) gives one piece. -/
def Split (s : String) (sep : Char) : List String :=
  (splitChars sep s.data).map String.mk

/-! ## Data model -/

/-- Go `error` values are identified with their message. -/
abbrev Error := String

/-- A closed interval `utils.Range[uint16]` of status codes. -/
structure Range where
  low : Nat
  high : Nat
  deriving DecidableEq, Repr

/-- The type of `utils.NewIntRangeList`: tokens and an error payload to a range list or
the payload. -/
abbrev RangeListParser := List String → Error → Except Error (List Range)

/-- A proxy handle `C.Proxy`: its name, and whether its adapter has the `C.Group`
capability (the outcome of the type assertion `ProxyAdapter.(C.Group)`). -/
structure Proxy where
  name : String
  group : Bool
  deriving DecidableEq, Repr

/-- The pair `(value, err)` returned by a Go function; `none` is the `nil` error. -/
abbrev Result (α : Type) := α × Option Error

/-- Modelled from the spec: the debounce guard `singledo.Single` (package `common/singledo`
is not part of the sources at hand). Spec 4.2 and 9: a shared pending execution to which
concurrent callers attach, and a completed outcome cached until its window ends.
`wait` is the window, `pending` the callers attached to the execution in flight (if any),
`cached` the last completed outcome together with the instant at which its window ends. -/
structure Single (α : Type) where
  wait : Nat
  pending : Option (List Nat)
  cached : Option (Result α × Nat)
  deriving DecidableEq, Repr

/-- Modelled from the spec: `singledo.NewSingle(wait)`, an empty guard with the given window. -/
def NewSingle (α : Type) (wait : Nat) : Single α :=
  { wait := wait, pending := none, cached := none }

/-- The struct `HealthCheck`. `done` is the number of stop signals waiting in the buffer of
the channel `done` (capacity `doneCap`), `lastTouch` the value of the atomic `int64`. -/
structure HealthCheck where
  url : String
  proxies : List Proxy
  interval : Nat
  lazy : Bool
  lastTouch : Int
  done : Nat
  singleDo : Single Unit
  statusCodeRange : List Range
  deriving DecidableEq, Repr

/-- Capacity of the channel built by `make(chan struct{}, 1)`. -/
def doneCap : Nat := 1

/-- The error payload `errors.New("parse status code range error")`. -/
def parseStatusCodeRangeError : Error := "parse status code range error"

/-- `NewHealthCheck`: the range list is the parser's result, replaced by the empty list
when the parser reports an error. The parser `utils.NewIntRangeList` is a parameter. -/
def NewHealthCheck (NewIntRangeList : RangeListParser) (proxies : List Proxy) (url : String)
    (interval : Nat) (lazy : Bool) (statusCodeRange : String) : HealthCheck :=
  let parsedStatusCodeRange :=
    match NewIntRangeList (Split statusCodeRange '/') parseStatusCodeRangeError with
    | .ok rs => rs
    | .error _ => []
  { proxies := proxies
    url := url
    interval := interval
    lazy := lazy
    lastTouch := 0
    done := 0
    singleDo := NewSingle Unit Second.toNat
    statusCodeRange := parsedStatusCodeRange }

/-! ## Status-range parser (spec 4.1) -/

/-- Value of a decimal digit character. -/
def digitVal (c : Char) : Option Nat :=
  if '0' ≤ c ∧ c ≤ '9' then some (c.toNat - 48) else none

/-- Value of a non-empty run of decimal digits read so far as `acc`. -/
def digitsVal : Nat → List Char → Option Nat
  | acc, [] => some acc
  | acc, c :: cs =>
    match digitVal c with
    | some d => digitsVal (acc * 10 + d) cs
    | none => none

/-- A 16-bit unsigned decimal number: a non-empty run of digits of value below `2^16`. -/
def parseUint16 (cs : List Char) : Option Nat :=
  match cs with
  | [] => none
  | _ =>
    match digitsVal 0 cs with
    | some n => if n < 2 ^ 16 then some n else none
    | none => none

/-- Modelled from the spec: one token of a status-range specification, a single integer or
`low-high` with `low ≤ high`. Spec 4.1: non-numeric tokens, reversed bounds and the
empty string are malformed. -/
def parseRangeToken (tok : String) : Option Range :=
  match splitChars '-' tok.data with
  | [a] =>
    match parseUint16 a with
    | some n => some ⟨n, n⟩
    | none => none
  | [a, b] =>
    match parseUint16 a, parseUint16 b with
    | some lo, some hi => if lo ≤ hi then some ⟨lo, hi⟩ else none
    | _, _ => none
  | _ => none

/-- Modelled from the spec: `utils.NewIntRangeList` (package `common/utils` is not part of
the sources at hand). Spec 4.1: every token is a single integer or an inclusive range; one
malformed token discards the whole specification, which is reported with the payload. -/
def NewIntRangeList : RangeListParser
  | [], _ => .ok []
  | tok :: toks, errPayload =>
    match parseRangeToken tok with
    | none => .error errPayload
    | some r =>
      match NewIntRangeList toks errPayload with
      | .ok rs => .ok (r :: rs)
      | .error e => .error e

/-! ## Debounce guard (spec 4.2) -/

/-- Modelled from the spec: the completed outcome a call entering the guard at instant `t`
is served with, when the cache window has not ended yet. -/
def Single.cachedAt {α : Type} (s : Single α) (t : Nat) : Option (Result α) :=
  match s.cached with
  | some (r, expiry) => if t < expiry then some r else none
  | none => none

/-- Modelled from the spec: `Single.Do` from entry to return, for a call that does not wait
for an execution started by another caller (waiting callers are the business of
`CheckSys.step`). The call enters at instant `t0`; within the window it returns the cached
outcome (`shared = true`) and the action does not run; otherwise the action runs on the
effect state `st`, completes at instant `t1`, the slot is emptied and the outcome is cached
for `wait` from then on. -/
def Single.Do {α σ : Type} (s : Single α) (t0 t1 : Nat) (fn : σ → Result α × σ) (st : σ) :
    (Result α × Bool) × Single α × σ :=
  match s.cachedAt t0 with
  | some r => ((r, true), s, st)
  | none =>
    let out := fn st
    ((out.1, false), { s with pending := none, cached := some (out.1, t1 + s.wait) }, out.2)

/-! ## Probe batch (spec 4.3) and the probe round of `check` -/

/-- Outcome `(delay, err)` of `Proxy.URLTest`. -/
inductive ProbeResult where
  | delay (ms : Nat)
  | failed (err : Error)
  deriving DecidableEq, Repr

/-- The behaviour of the proxies: what `p.URLTest(ctx, url, ranges)` returns. -/
abbrev ProbeOracle := Proxy → String → List Range → ProbeResult

/-- One invocation of `URLTest` on a proxy: the proxy, the timeout of the context, the
arguments, and what the proxy answered. -/
structure ProbeRecord where
  proxy : Proxy
  timeout : Int
  url : String
  ranges : List Range
  result : ProbeResult
  deriving DecidableEq, Repr

/-- Modelled from the spec: the probe batch `batch.Batch` (package `common/batch` is not part
of the sources at hand). It keeps the result of every task under its key and the first
task failure, which `Wait` reports. -/
structure Batch (α : Type) where
  result : List (String × Result α)
  err : Option (String × Error)

/-- Modelled from the spec: `batch.New`, an empty batch. -/
def Batch.New (α : Type) : Batch α := { result := [], err := none }

/-- Modelled from the spec: `Batch.Go(key, fn)` runs the task once and stores its result;
the first task that fails becomes the failure of the batch. Tasks run in submission order,
one of the schedules the concurrency bound admits. -/
def Batch.Go {α σ : Type} (b : Batch α) (key : String) (fn : σ → Result α × σ) (st : σ) :
    Batch α × σ :=
  let out := fn st
  ({ result := b.result ++ [(key, out.1)]
     err :=
       match b.err, out.1.2 with
       | none, some e => some (key, e)
       | e0, _ => e0 },
   out.2)

/-- Modelled from the spec: `Batch.Wait`, the barrier; it reports the failure of the batch. -/
def Batch.Wait {α : Type} (b : Batch α) : Option (String × Error) := b.err

/-- The task `check` submits for proxy `p`: `URLTest` under `defaultURLTestTimeout` with the
url and range list of the health check; both results of `URLTest` are dropped and the task
returns `(false, nil)`. -/
def HealthCheck.probeTask (URLTest : ProbeOracle) (hc : HealthCheck) (p : Proxy)
    (log : List ProbeRecord) : Result Bool × List ProbeRecord :=
  let answer := URLTest p hc.url hc.statusCodeRange
  ((false, none),
   log ++ [{ proxy := p, timeout := defaultURLTestTimeout, url := hc.url,
             ranges := hc.statusCodeRange, result := answer }])

/-- The batch built by the loop `for _, proxy := range hc.proxies` of `check`. -/
def HealthCheck.submitAll (URLTest : ProbeOracle) (hc : HealthCheck) :
    List Proxy → Batch Bool × List ProbeRecord → Batch Bool × List ProbeRecord
  | [], acc => acc
  | p :: ps, acc =>
    hc.submitAll URLTest ps (acc.1.Go p.name (hc.probeTask URLTest p) acc.2)

/-- The action `check` hands to the guard: one task per proxy of `hc.proxies`, the barrier
`b.Wait()` whose result is dropped, and the outcome `(struct{}{}, nil)`. -/
def HealthCheck.round (URLTest : ProbeOracle) (hc : HealthCheck) (log : List ProbeRecord) :
    Result Unit × List ProbeRecord :=
  let b := hc.submitAll URLTest hc.proxies (Batch.New Bool, log)
  let _ := b.1.Wait
  (((), none), b.2)

/-- `check`: the round run through the guard `hc.singleDo`; the three results of `Do` are
dropped. The call enters the guard at `t0`; a round that runs completes at `t1`. -/
def HealthCheck.check (URLTest : ProbeOracle) (t0 t1 : Nat) (hc : HealthCheck)
    (log : List ProbeRecord) : HealthCheck × List ProbeRecord :=
  let out := hc.singleDo.Do t0 t1 (hc.round URLTest) log
  ({ hc with singleDo := out.2.1 }, out.2.2)

/-- `setProxy`. -/
def HealthCheck.setProxy (hc : HealthCheck) (proxies : List Proxy) : HealthCheck :=
  { hc with proxies := proxies }

/-- `auto`. -/
def HealthCheck.auto (hc : HealthCheck) : Bool := hc.interval != 0

/-- `touch`, with `now` the value of `time.Now().Unix()`. -/
def HealthCheck.touch (hc : HealthCheck) (now : Int) : HealthCheck :=
  { hc with lastTouch := now }

/-! ## `check` under concurrent callers -/

/-- What happens at one health check whose `check` is called from several goroutines:
goroutine `caller` invokes `hc.check()` and enters the guard at instant `t`, or the round in
flight completes at instant `t`. -/
inductive CheckEv where
  | call (caller : Nat) (t : Nat)
  | complete (t : Nat)
  deriving DecidableEq, Repr

/-- A health check under concurrent calls of `check`: the health check (the slot
`singleDo.pending` holds the callers waiting for the round in flight), the probes sent so
far, the instant at which the call that runs the round in flight entered the guard, the
number of rounds started, the number of rounds executing now, and the outcome handed to each
caller that has returned. -/
structure CheckSys where
  hc : HealthCheck
  probes : List ProbeRecord
  entered : Nat
  started : Nat
  executing : Nat
  returned : List (Nat × Result Unit)
  deriving DecidableEq, Repr

/-- A health check on which no call of `check` is in progress. -/
def CheckSys.init (hc : HealthCheck) (log : List ProbeRecord) : CheckSys :=
  { hc := hc, probes := log, entered := 0, started := 0, executing := 0, returned := [] }

/-- Modelled from the spec: one event at a health check shared by several goroutines
(spec 4.2). A call that finds a round in flight attaches to it and waits. Any other call is
the call `hc.check()` of the sequential reading: when `Do` answers it from the cache
(`shared`), it returns at once with what `check` leaves; otherwise it starts the round, which
stays in flight until its completion. At completion the call of `check` that runs the round
takes effect, entered at `entered` and completed now, and the outcome `Do` returns to it is
handed to every caller attached. -/
def CheckSys.step (URLTest : ProbeOracle) (sys : CheckSys) : CheckEv → CheckSys
  | .call c t =>
    match sys.hc.singleDo.pending with
    | some ws =>
      { sys with
        hc := { sys.hc with singleDo := { sys.hc.singleDo with pending := some (ws ++ [c]) } } }
    | none =>
      let out := sys.hc.singleDo.Do t t (sys.hc.round URLTest) sys.probes
      if out.1.2 then
        let after := sys.hc.check URLTest t t sys.probes
        { sys with hc := after.1, probes := after.2, returned := sys.returned ++ [(c, out.1.1)] }
      else
        { sys with
          hc := { sys.hc with singleDo := { sys.hc.singleDo with pending := some [c] } }
          entered := t
          started := sys.started + 1
          executing := sys.executing + 1 }
  | .complete t =>
    match sys.hc.singleDo.pending with
    | some ws =>
      let out := sys.hc.singleDo.Do sys.entered t (sys.hc.round URLTest) sys.probes
      let after := sys.hc.check URLTest sys.entered t sys.probes
      { hc := after.1
        probes := after.2
        entered := sys.entered
        started := sys.started
        executing := sys.executing - 1
        returned := sys.returned ++ ws.map (fun c => (c, out.1.1)) }
    | none => sys

/-- The health check after a sequence of events. -/
def CheckSys.run (URLTest : ProbeOracle) (sys : CheckSys) (evs : List CheckEv) : CheckSys :=
  evs.foldl (CheckSys.step URLTest) sys

/-- A burst of calls of `check` on one health check: a first call at `t0`, further calls
`pre` (caller and instant) arriving while the round is in flight, the completion of the round
at `t1`, and calls `post` arriving afterwards. -/
def burst (c0 t0 : Nat) (pre : List (Nat × Nat)) (t1 : Nat) (post : List (Nat × Nat)) :
    List CheckEv :=
  CheckEv.call c0 t0 :: pre.map (fun p => CheckEv.call p.1 p.2) ++
    CheckEv.complete t1 :: post.map (fun p => CheckEv.call p.1 p.2)

/-- The bookkeeping of concurrent calls is coherent: a round is executing exactly when the
slot holds waiting callers, and the call that runs it entered with the cache expired. -/
def CheckSys.coherent (sys : CheckSys) : Prop :=
  match sys.hc.singleDo.pending with
  | some _ => sys.executing = 1 ∧ sys.hc.singleDo.cachedAt sys.entered = none
  | none => sys.executing = 0

/-! ## The scheduler loop `process` and `close` -/

/-- The test of `process` on a tick read at Unix time `now`:
`!hc.lazy || now-hc.lastTouch.Load() < int64(hc.interval)`, on `int64`. -/
def HealthCheck.due (hc : HealthCheck) (now : Int) : Bool :=
  !hc.lazy || decide (sub64 now hc.lastTouch < int64OfUint hc.interval)

/-- Where the goroutine running `process` stands: not started, inside the `for`/`select`
loop, returned after the stop signal, or stopped by the panic of `time.NewTicker`. -/
inductive Loop where
  | idle
  | scheduled
  | closed
  | panicked
  deriving DecidableEq, Repr

/-- A `time.Ticker`: its period in nanoseconds, the number of ticks waiting in the channel
`C` (capacity 1), and whether `Stop` has been called. -/
structure Ticker where
  period : Int
  C : Nat
  stopped : Bool
  deriving DecidableEq, Repr

/-- A health check together with its scheduler goroutine and what it has done so far:
`checks` counts the invocations of `hc.check()` made by the loop, `probes` logs the probes
sent to proxies. -/
structure World where
  hc : HealthCheck
  loop : Loop
  ticker : Option Ticker
  checks : Nat
  probes : List ProbeRecord
  deriving DecidableEq, Repr

/-- A fresh health check whose scheduler has not been started. -/
def World.init (hc : HealthCheck) : World :=
  { hc := hc, loop := .idle, ticker := none, checks := 0, probes := [] }

/-- The things that can happen to a health check.
* `start`: `go hc.process()` reaches `time.NewTicker`;
* `fire`: the runtime delivers a tick on `ticker.C`;
* `tick now t0 t1`: the `select` of `process` takes `<-ticker.C`, reads `now` from
  `time.Now().Unix()`; a call of `check` enters the guard at `t0`, a round completes at `t1`;
* `stop`: the `select` of `process` takes `<-hc.done`;
* `close`: some goroutine runs `hc.close()`;
* `touch now`: some goroutine runs `hc.touch()` at Unix time `now`;
* `setProxy ps`: some goroutine runs `hc.setProxy(ps)`. -/
inductive Ev where
  | start
  | fire
  | tick (now : Int) (t0 t1 : Nat)
  | stop
  | close
  | touch (now : Int)
  | setProxy (proxies : List Proxy)
  deriving DecidableEq, Repr

/-- First statement of `process`: `time.NewTicker(time.Duration(hc.interval) * time.Second)`,
which panics on a period that is not positive. -/
def World.processStart (w : World) : World :=
  let d := mul64 (int64OfUint w.hc.interval) Second
  if d ≤ 0 then { w with loop := .panicked }
  else { w with loop := .scheduled, ticker := some { period := d, C := 0, stopped := false } }

/-- Branch `case <-ticker.C` of `process`: `check` when the test holds, otherwise only the
debug line `Skip once health check because we are lazy`. -/
def World.processTick (URLTest : ProbeOracle) (w : World) (now : Int) (t0 t1 : Nat) : World :=
  if w.hc.due now then
    let out := w.hc.check URLTest t0 t1 w.probes
    { w with hc := out.1, probes := out.2, checks := w.checks + 1 }
  else w

/-- Branch `case <-hc.done` of `process`: `ticker.Stop()` and `return`. -/
def World.processDone (w : World) : World :=
  { w with
    loop := .closed
    ticker := w.ticker.map (fun tk => { tk with stopped := true }) }

/-- `close`: the send `hc.done <- struct{}{}`. It goes through when the buffer of `done` has
room; `none` stands for a send that blocks. -/
def HealthCheck.close (hc : HealthCheck) : Option HealthCheck :=
  if hc.done < doneCap then some { hc with done := hc.done + 1 } else none

/-- One event, or `none` when it cannot happen in this state: a receive needs a waiting
value, the send of `close` needs room in the buffer of `done` (it blocks otherwise), and the
`select` of `process` is free to take either channel that is ready. -/
def World.step (URLTest : ProbeOracle) (w : World) : Ev → Option World
  | .start => if w.loop = .idle then some w.processStart else none
  | .fire =>
    match w.ticker with
    | some tk =>
      if tk.stopped then none
      else some { w with ticker := some { tk with C := min (tk.C + 1) 1 } }
    | none => none
  | .tick now t0 t1 =>
    match w.ticker with
    | some tk =>
      if w.loop = .scheduled ∧ 0 < tk.C then
        some (World.processTick URLTest { w with ticker := some { tk with C := tk.C - 1 } }
          now t0 t1)
      else none
    | none => none
  | .stop =>
    if w.loop = .scheduled ∧ 0 < w.hc.done then
      some (World.processDone { w with hc := { w.hc with done := w.hc.done - 1 } })
    else none
  | .close =>
    match w.hc.close with
    | some hc => some { w with hc := hc }
    | none => none
  | .touch now => some { w with hc := w.hc.touch now }
  | .setProxy ps => some { w with hc := w.hc.setProxy ps }

/-- The world after a sequence of events; an event that cannot happen leaves it as it is. -/
def World.run (URLTest : ProbeOracle) (w : World) (evs : List Ev) : World :=
  evs.foldl (fun w e => (w.step URLTest e).getD w) w

/-! ## The on-demand trigger `getGroupDelay` -/

/-- The two failures of `strconv`. -/
inductive NumError where
  | ErrSyntax
  | ErrRange
  deriving DecidableEq, Repr

/-- The constant `cutoff = maxUint64/10 + 1` of `strconv.ParseUint` in base 10. -/
def cutoff64 : Nat := (2 ^ 64 - 1) / 10 + 1

/-- The digit loop of Go `strconv.ParseUint(s, 10, bitSize)` with `maxVal = 2^bitSize - 1`:
a character that is not a decimal digit is a syntax error, a value above `maxVal` (or one
that leaves 64 bits) a range error reported together with `maxVal`. -/
def parseUintLoop (maxVal : Nat) : Nat → List Char → Nat × Option NumError
  | n, [] => (n, none)
  | n, c :: cs =>
    match digitVal c with
    | none => (0, some .ErrSyntax)
    | some d =>
      if cutoff64 ≤ n then (maxVal, some .ErrRange)
      else if maxVal < n * 10 + d then (maxVal, some .ErrRange)
      else parseUintLoop maxVal (n * 10 + d) cs

/-- Go `strconv.ParseUint(s, 10, 32)`. -/
def ParseUint32 (cs : List Char) : Nat × Option NumError :=
  match cs with
  | [] => (0, some .ErrSyntax)
  | _ => parseUintLoop (2 ^ 32 - 1) 0 cs

/-- Go `strconv.ParseInt(s, 10, 32)`: an optional sign, then `ParseUint`; a syntax error is
passed on, and a magnitude outside the signed 32-bit range is a range error. -/
def ParseInt32 (s : String) : Int × Option NumError :=
  match s.data with
  | [] => (0, some .ErrSyntax)
  | c :: rest =>
    let neg : Bool := c = '-'
    let body := if c = '+' ∨ c = '-' then rest else c :: rest
    let un := ParseUint32 body
    if un.2 = some .ErrSyntax then (0, un.2)
    else if !neg && decide (2 ^ 31 ≤ un.1) then (2 ^ 31 - 1, some .ErrRange)
    else if neg && decide (2 ^ 31 < un.1) then (-(2 ^ 31), some .ErrRange)
    else (if neg then -(un.1 : Int) else (un.1 : Int), none)

/-- The part of `*http.Request` that `getGroupDelay` reads: the proxy stored in the context
under `CtxKeyProxy` and the parsed query `r.URL.Query()`, as key/value pairs in order. -/
structure Request where
  proxy : Proxy
  query : List (String × String)
  deriving DecidableEq, Repr

/-- Go `url.Values.Get`: the first value of the key, the empty string when there is none. -/
def Request.queryGet (r : Request) (key : String) : String :=
  match r.query.find? (fun kv => kv.1 = key) with
  | some kv => kv.2
  | none => ""

/-- What `render.JSON` is given: one of the two fixed errors `ErrNotFound` and
`ErrBadRequest` (declared elsewhere in package `route`), `newError(msg)`, or the delay map
of a group. -/
inductive Payload where
  | ErrNotFound
  | ErrBadRequest
  | newError (msg : String)
  | delayMap (dm : List (String × Nat))
  deriving DecidableEq, Repr

/-- The response written: the status given to `render.Status` (200 without one) and the
payload. -/
structure Response where
  status : Nat
  body : Payload
  deriving DecidableEq, Repr

/-- `http.StatusOK`. -/
def StatusOK : Nat := 200
/-- `http.StatusBadRequest`. -/
def StatusBadRequest : Nat := 400
/-- `http.StatusNotFound`. -/
def StatusNotFound : Nat := 404
/-- `http.StatusGatewayTimeout`. -/
def StatusGatewayTimeout : Nat := 504

/-- The behaviour of a group: what `group.URLTest(ctx, url, ranges)` returns under a context
with the given timeout. -/
abbrev GroupOracle := Proxy → Int → String → List Range → Except Error (List (String × Nat))

/-- One invocation of `group.URLTest`: the group, the timeout of the context, the arguments. -/
structure GroupCall where
  group : Proxy
  timeout : Int
  url : String
  ranges : List Range
  deriving DecidableEq, Repr

/-- `getGroupDelay`: the response and the rounds started. The parser `utils.NewIntRangeList`
is a parameter. -/
def getGroupDelay (NewIntRangeList : RangeListParser) (URLTest : GroupOracle) (r : Request) :
    Response × List GroupCall :=
  if r.proxy.group = false then
    ({ status := StatusNotFound, body := .ErrNotFound }, [])
  else
    let statusCodeRange := r.queryGet "statusCodeRange"
    let url := r.queryGet "url"
    let timeout := ParseInt32 (r.queryGet "timeout")
    if timeout.2 ≠ none then
      ({ status := StatusBadRequest, body := .ErrBadRequest }, [])
    else
      let ctxTimeout := mul64 Millisecond timeout.1
      let parsedStatusCodeRange :=
        match NewIntRangeList (Split statusCodeRange '/') parseStatusCodeRangeError with
        | .ok rs => rs
        | .error _ => []
      let call : GroupCall :=
        { group := r.proxy, timeout := ctxTimeout, url := url, ranges := parsedStatusCodeRange }
      match URLTest r.proxy ctxTimeout url parsedStatusCodeRange with
      | .error err => ({ status := StatusGatewayTimeout, body := .newError err }, [call])
      | .ok dm => ({ status := StatusOK, body := .delayMap dm }, [call])

/-! ## Vocabulary of the statements -/

/-- A base-10 integer as a text: an optional sign followed by one or more decimal digits. -/
def isBase10Integer (s : String) : Bool :=
  match s.data with
  | [] => false
  | c :: rest =>
    let body := if c = '+' ∨ c = '-' then rest else c :: rest
    !body.isEmpty && body.all Char.isDigit

/-- The integer a text denotes in base 10: an optional sign followed by one or more decimal
digits; `none` for any other text (the empty one included). -/
def intValue (s : String) : Option Int :=
  match s.data with
  | [] => none
  | c :: rest =>
    let body := if c = '+' ∨ c = '-' then rest else c :: rest
    match body with
    | [] => none
    | _ =>
      match digitsVal 0 body with
      | some v => some (if c = '-' then -(v : Int) else (v : Int))
      | none => none

/-- The probe `check` sends to proxy `p`, with the answer of the proxy. -/
def HealthCheck.probeOf (URLTest : ProbeOracle) (hc : HealthCheck) (p : Proxy) : ProbeRecord :=
  { proxy := p, timeout := defaultURLTestTimeout, url := hc.url, ranges := hc.statusCodeRange,
    result := URLTest p hc.url hc.statusCodeRange }

/-- The range list `getGroupDelay` passes on: the parser's list, empty on a parse error. -/
def rangesOrEmpty (parse : RangeListParser) (spec : String) : List Range :=
  match parse (Split spec '/') parseStatusCodeRangeError with
  | .ok rs => rs
  | .error _ => []

/-- The scheduler loop has returned: it is `closed` and its ticker, if any, is stopped. -/
def World.isClosed (w : World) : Prop :=
  w.loop = .closed ∧ ∀ tk, w.ticker = some tk → tk.stopped = true

instance (w : World) : Decidable w.isClosed :=
  inferInstanceAs (Decidable (w.loop = .closed ∧ ∀ tk ∈ w.ticker, tk.stopped = true))

/-- The state in which a health check without scheduler (`interval = 0`) is left by a first
`close()`: the stop signal fills the buffer of `done` and no loop exists that could take
it. -/
def World.isStuck (w : World) : Prop :=
  w.hc.interval = 0 ∧ w.hc.done = 1 ∧ w.ticker = none ∧ (w.loop = .idle ∨ w.loop = .panicked)

instance (w : World) : Decidable w.isStuck :=
  inferInstanceAs (Decidable (w.hc.interval = 0 ∧ w.hc.done = 1 ∧ w.ticker = none ∧
    (w.loop = .idle ∨ w.loop = .panicked)))

/-! ## Concrete inputs used by the witnesses -/

/-- A health check over two leaf proxies, interval 10, not lazy, accepting status 200. -/
def twoProxies : HealthCheck :=
  NewHealthCheck NewIntRangeList [⟨"a", false⟩, ⟨"b", false⟩] "http://x" 10 false "200"

/-- Proxies of which `a` fails every probe and the others answer in 12 ms. -/
def deadA : ProbeOracle := fun p _ _ => if p.name = "a" then .failed "dead" else .delay 12

/-- A group that reports the deadline as exceeded when it is given no time, and one
measured delay otherwise. -/
def slowGroup : GroupOracle := fun _ timeout _ _ =>
  if timeout ≤ 0 then .error "context deadline exceeded" else .ok [("a", 3)]

/-- The health check of the lazy-mode example: interval 10, lazy. -/
def lazyTen : HealthCheck :=
  NewHealthCheck NewIntRangeList [⟨"a", false⟩, ⟨"b", false⟩] "http://x" 10 true "200"

/-- The lazy-mode example at the moment a tick is waiting: touched at Unix time
1700000000, scheduler started, one tick delivered. -/
def lazyTenWorld : World :=
  World.run deadA (World.init lazyTen) [.touch 1700000000, .start, .fire]

/-- A lazy health check whose interval `2^63 + 1` does not fit `int64`, touched at Unix time
1700000000, scheduler started (the ticker period wraps to one second), one tick delivered. -/
def wrappedWorld : World :=
  World.run deadA
    (World.init
      (NewHealthCheck NewIntRangeList [⟨"a", false⟩, ⟨"b", false⟩] "http://x" (2 ^ 63 + 1) true
        "200"))
    [.touch 1700000000, .start, .fire]

/-- A running scheduler with a tick waiting in `ticker.C` at the moment `close()` has been
invoked and has returned: the stop signal waits in the buffer of `done`. -/
def closingWorld : World :=
  World.run deadA (World.init twoProxies) [.start, .fire, .close]

/-- A health check built with `interval = 0`: it has no scheduler (`auto` is false). -/
def noScheduler : HealthCheck :=
  NewHealthCheck NewIntRangeList [⟨"a", false⟩, ⟨"b", false⟩] "http://x" 0 false "200"

/-- The health check without scheduler after a first `close()`. -/
def closedOnce : World :=
  World.run deadA (World.init noScheduler) [.close]

/-- A running scheduler on which `close()` has not been called. -/
def runningWorld : World :=
  World.run deadA (World.init twoProxies) [.start]

/-! ## Construction -/

/-- C4. `NewHealthCheck` is total; the health check it returns carries the arguments, a zero
`lastTouch`, and as range list the parser's result, or the empty list when the parser
reports an error, whatever the parser is. With the parser of spec 4.1 the specification
`"abc"` is rejected and gives the empty range list. -/
theorem NewHealthCheck_fields (parse : RangeListParser) (proxies : List Proxy) (url : String)
    (interval : Nat) (lazy : Bool) (spec : String) :
    (NewHealthCheck parse proxies url interval lazy spec).proxies = proxies ∧
    (NewHealthCheck parse proxies url interval lazy spec).url = url ∧
    (NewHealthCheck parse proxies url interval lazy spec).interval = interval ∧
    (NewHealthCheck parse proxies url interval lazy spec).lazy = lazy ∧
    (NewHealthCheck parse proxies url interval lazy spec).lastTouch = 0 ∧
    (∀ rs, parse (Split spec '/') parseStatusCodeRangeError = .ok rs →
      (NewHealthCheck parse proxies url interval lazy spec).statusCodeRange = rs) ∧
    (∀ e, parse (Split spec '/') parseStatusCodeRangeError = .error e →
      (NewHealthCheck parse proxies url interval lazy spec).statusCodeRange = []) ∧
    NewIntRangeList (Split "abc" '/') parseStatusCodeRangeError
      = .error parseStatusCodeRangeError ∧
    (NewHealthCheck NewIntRangeList proxies url interval lazy "abc").statusCodeRange = [] := by
  refine ⟨rfl, rfl, rfl, rfl, rfl, ?_, ?_, rfl, rfl⟩
  · intro rs h
    simp [NewHealthCheck, h]
  · intro e h
    simp [NewHealthCheck, h]

/-- The specification `200/400-404` is kept as two ranges; the reversed range `404-400` is
rejected by the parser of spec 4.1 and leaves the range list empty. -/
theorem NewHealthCheck_fields_witness :
    (NewHealthCheck NewIntRangeList [] "http://x" 10 true "200/400-404").statusCodeRange
      = [⟨200, 200⟩, ⟨400, 404⟩] ∧
    (NewHealthCheck NewIntRangeList [] "http://x" 10 true "404-400").statusCodeRange = [] :=
  ⟨(NewHealthCheck_fields NewIntRangeList [] "http://x" 10 true "200/400-404").2.2.2.2.2.1
      [⟨200, 200⟩, ⟨400, 404⟩] rfl,
   (NewHealthCheck_fields NewIntRangeList [] "http://x" 10 true "404-400").2.2.2.2.2.2.1
      parseStatusCodeRangeError rfl⟩

/-! ## The probe round -/

theorem submitAll_log (URLTest : ProbeOracle) (hc : HealthCheck) (ps : List Proxy)
    (acc : Batch Bool × List ProbeRecord) :
    (hc.submitAll URLTest ps acc).2 = acc.2 ++ ps.map (hc.probeOf URLTest) := by
  induction ps generalizing acc with
  | nil => simp [HealthCheck.submitAll]
  | cons p ps ih =>
    simp [HealthCheck.submitAll, ih, Batch.Go, HealthCheck.probeTask, HealthCheck.probeOf]

theorem submitAll_err (URLTest : ProbeOracle) (hc : HealthCheck) (ps : List Proxy)
    (acc : Batch Bool × List ProbeRecord) (h : acc.1.err = none) :
    (hc.submitAll URLTest ps acc).1.err = none := by
  induction ps generalizing acc with
  | nil => simpa [HealthCheck.submitAll] using h
  | cons p ps ih =>
    simp only [HealthCheck.submitAll]
    apply ih
    simp [Batch.Go, HealthCheck.probeTask, h]

theorem submitAll_keys (URLTest : ProbeOracle) (hc : HealthCheck) (ps : List Proxy)
    (acc : Batch Bool × List ProbeRecord) :
    (hc.submitAll URLTest ps acc).1.result
      = acc.1.result ++ ps.map (fun p => (p.name, ((false, none) : Result Bool))) := by
  induction ps generalizing acc with
  | nil => simp [HealthCheck.submitAll]
  | cons p ps ih =>
    simp [HealthCheck.submitAll, ih, Batch.Go, HealthCheck.probeTask]

/-- C3. A round that `check` executes (the guard does not serve the call from its cache)
sends exactly one probe to each proxy of `hc.proxies`, each with `hc.url`,
`hc.statusCodeRange` and the default timeout, whatever the proxies answer; every task ends
with `(false, nil)`, the barrier reports no failure, and the outcome of the round, which the
guard caches, is `(struct{}{}, nil)`. -/
theorem check_round_probes_all (URLTest : ProbeOracle) (hc : HealthCheck) (t0 t1 : Nat)
    (log : List ProbeRecord) (hrun : hc.singleDo.cachedAt t0 = none) :
    (hc.check URLTest t0 t1 log).2 = log ++ hc.proxies.map (hc.probeOf URLTest) ∧
    (hc.round URLTest log).1 = ((), none) ∧
    (hc.submitAll URLTest hc.proxies (Batch.New Bool, log)).1.Wait = none ∧
    (hc.submitAll URLTest hc.proxies (Batch.New Bool, log)).1.result
      = hc.proxies.map (fun p => (p.name, ((false, none) : Result Bool))) ∧
    (hc.check URLTest t0 t1 log).1.singleDo.cached
      = some (((), none), t1 + hc.singleDo.wait) := by
  refine ⟨?_, rfl, ?_, ?_, ?_⟩
  · simp [HealthCheck.check, Single.Do, hrun, HealthCheck.round, submitAll_log]
  · exact submitAll_err URLTest hc hc.proxies _ rfl
  · simpa [Batch.New] using submitAll_keys URLTest hc hc.proxies (Batch.New Bool, log)
  · simp [HealthCheck.check, Single.Do, hrun, HealthCheck.round]

/-- Two proxies, the first of which fails its probe: both are probed once and the round
reports no error. -/
theorem check_round_probes_all_witness :
    twoProxies.singleDo.cachedAt 0 = none ∧
    (twoProxies.check deadA 0 7 []).2
      = [] ++ twoProxies.proxies.map (twoProxies.probeOf deadA) ∧
    twoProxies.proxies.map (twoProxies.probeOf deadA)
      = [⟨⟨"a", false⟩, 5000000000, "http://x", [⟨200, 200⟩], .failed "dead"⟩,
         ⟨⟨"b", false⟩, 5000000000, "http://x", [⟨200, 200⟩], .delay 12⟩] :=
  ⟨rfl, (check_round_probes_all deadA twoProxies 0 7 [] rfl).1, by decide⟩

/-! ## The on-demand trigger -/

/-- C5. A target that is not a group is answered with 404 and `ErrNotFound` whatever the
query holds, and no round is started. -/
theorem getGroupDelay_not_group (parse : RangeListParser) (URLTest : GroupOracle) (r : Request)
    (h : r.proxy.group = false) :
    getGroupDelay parse URLTest r = ({ status := 404, body := .ErrNotFound }, []) := by
  simp [getGroupDelay, h, StatusNotFound]

/-- A leaf proxy asked with a valid query, and with no timeout at all. -/
theorem getGroupDelay_not_group_witness :
    getGroupDelay NewIntRangeList slowGroup
        ⟨⟨"leaf", false⟩, [("url", "http://x"), ("timeout", "100")]⟩
      = ({ status := 404, body := .ErrNotFound }, []) ∧
    getGroupDelay NewIntRangeList slowGroup ⟨⟨"leaf", false⟩, [("url", "http://x")]⟩
      = ({ status := 404, body := .ErrNotFound }, []) :=
  ⟨getGroupDelay_not_group NewIntRangeList slowGroup
      ⟨⟨"leaf", false⟩, [("url", "http://x"), ("timeout", "100")]⟩ rfl,
   getGroupDelay_not_group NewIntRangeList slowGroup ⟨⟨"leaf", false⟩, [("url", "http://x")]⟩
      rfl⟩


theorem digitVal_isDigit (c : Char) (d : Nat) (h : digitVal c = some d) : c.isDigit = true := by
  unfold digitVal at h
  split at h
  · rename_i hc
    simp only [Char.isDigit, Bool.and_eq_true, decide_eq_true_eq]
    exact hc
  · cases h

theorem parseUintLoop_ok (maxVal : Nat) (cs : List Char) (n : Nat) (hn : n ≤ maxVal)
    (h : (parseUintLoop maxVal n cs).2 = none) :
    cs.all Char.isDigit = true ∧ (parseUintLoop maxVal n cs).1 ≤ maxVal := by
  induction cs generalizing n with
  | nil => simpa [parseUintLoop] using hn
  | cons c cs ih =>
    unfold parseUintLoop at h ⊢
    cases hd : digitVal c with
    | none => simp [hd] at h
    | some d =>
      simp only [hd] at h ⊢
      by_cases h1 : cutoff64 ≤ n
      · simp [h1] at h
      · simp only [h1, if_false] at h ⊢
        by_cases h2 : maxVal < n * 10 + d
        · simp [h2] at h
        · simp only [h2, if_false] at h ⊢
          have := ih (n * 10 + d) (by omega) h
          simp [digitVal_isDigit c d hd, this.1, this.2]

theorem parseUintLoop_range (maxVal : Nat) (cs : List Char) (n : Nat)
    (h : (parseUintLoop maxVal n cs).2 = some .ErrRange) :
    (parseUintLoop maxVal n cs).1 = maxVal := by
  induction cs generalizing n with
  | nil => simp [parseUintLoop] at h
  | cons c cs ih =>
    unfold parseUintLoop at h ⊢
    cases hd : digitVal c with
    | none => simp [hd] at h
    | some d =>
      simp only [hd] at h ⊢
      by_cases h1 : cutoff64 ≤ n
      · simp [h1]
      · simp only [h1, if_false] at h ⊢
        by_cases h2 : maxVal < n * 10 + d
        · simp [h2]
        · simp only [h2, if_false] at h ⊢
          exact ih _ h

theorem ParseUint32_cases (cs : List Char) :
    ((ParseUint32 cs).2 = none ∧ cs ≠ [] ∧ cs.all Char.isDigit = true ∧
        (ParseUint32 cs).1 ≤ 2 ^ 32 - 1) ∨
    (ParseUint32 cs).2 = some .ErrSyntax ∨
    ((ParseUint32 cs).2 = some .ErrRange ∧ (ParseUint32 cs).1 = 2 ^ 32 - 1) := by
  cases cs with
  | nil => right; left; rfl
  | cons c cs =>
    simp only [ParseUint32]
    rcases h : (parseUintLoop (2 ^ 32 - 1) 0 (c :: cs)).2 with _ | e
    · left
      have := parseUintLoop_ok (2 ^ 32 - 1) (c :: cs) 0 (by omega) h
      exact ⟨rfl, by simp, this.1, this.2⟩
    · cases e with
      | ErrSyntax => right; left; rfl
      | ErrRange => right; right; exact ⟨rfl, parseUintLoop_range _ _ _ h⟩

theorem ParseInt32_ok (s : String) (h : (ParseInt32 s).2 = none) :
    isBase10Integer s = true ∧ -(2 ^ 31) ≤ (ParseInt32 s).1 ∧ (ParseInt32 s).1 < 2 ^ 31 := by
  unfold ParseInt32 at h ⊢
  unfold isBase10Integer
  cases hs : s.data with
  | nil => simp [hs] at h
  | cons c rest =>
    simp only [hs] at h ⊢
    generalize hb : (if c = '+' ∨ c = '-' then rest else c :: rest) = body at h ⊢
    rcases ParseUint32_cases body with ⟨h0, hne, hall, hle⟩ | hsyn | ⟨hr, hv⟩
    · simp only [h0] at h ⊢
      simp only [reduceCtorEq, if_false] at h ⊢
      by_cases hneg : c = '-'
      · by_cases hlt : 2147483648 < (ParseUint32 body).1
        · simp [hneg, hlt] at h
        · simp only [hneg, hlt] at h ⊢
          refine ⟨by simp [hne, hall], ?_, ?_⟩ <;> simp [hlt] <;> omega
      · by_cases hlt : 2147483648 ≤ (ParseUint32 body).1
        · simp [hneg, hlt] at h
        · simp only [hneg, hlt] at h ⊢
          refine ⟨by simp [hne, hall], ?_, ?_⟩ <;> simp [hlt] <;> omega
    · simp [hsyn] at h
    · simp only [hr, hv] at h ⊢
      by_cases hneg : c = '-' <;> simp [hneg] at h

theorem digitsVal_mono (cs : List Char) (n v : Nat) (h : digitsVal n cs = some v) : n ≤ v := by
  induction cs generalizing n with
  | nil =>
    simp only [digitsVal, Option.some.injEq] at h
    omega
  | cons c cs ih =>
    unfold digitsVal at h
    cases hd : digitVal c with
    | none => simp [hd] at h
    | some d =>
      simp only [hd] at h
      have := ih _ h
      omega

theorem parseUintLoop_value (maxVal : Nat) (cs : List Char) (n : Nat)
    (h : (parseUintLoop maxVal n cs).2 = none) :
    digitsVal n cs = some (parseUintLoop maxVal n cs).1 := by
  induction cs generalizing n with
  | nil => simp [parseUintLoop, digitsVal]
  | cons c cs ih =>
    unfold parseUintLoop at h ⊢
    unfold digitsVal
    cases hd : digitVal c with
    | none => simp [hd] at h
    | some d =>
      simp only [hd] at h ⊢
      by_cases h1 : cutoff64 ≤ n
      · simp [h1] at h
      · simp only [h1, if_false] at h ⊢
        by_cases h2 : maxVal < n * 10 + d
        · simp [h2] at h
        · simp only [h2, if_false] at h ⊢
          exact ih _ h

theorem parseUintLoop_accepts (maxVal : Nat) (hmax : maxVal < cutoff64) (cs : List Char)
    (n v : Nat) (h : digitsVal n cs = some v) (hv : v ≤ maxVal) :
    parseUintLoop maxVal n cs = (v, none) := by
  induction cs generalizing n with
  | nil =>
    simp only [digitsVal, Option.some.injEq] at h
    simp [parseUintLoop, h]
  | cons c cs ih =>
    have hn := digitsVal_mono _ _ _ h
    unfold digitsVal at h
    unfold parseUintLoop
    cases hd : digitVal c with
    | none => simp [hd] at h
    | some d =>
      simp only [hd] at h ⊢
      have hm := digitsVal_mono _ _ _ h
      have h1 : ¬ cutoff64 ≤ n := by omega
      have h2 : ¬ maxVal < n * 10 + d := by omega
      simp only [h1, h2, if_false]
      exact ih _ h

theorem ParseUint32_value (cs : List Char) (h : (ParseUint32 cs).2 = none) :
    cs ≠ [] ∧ digitsVal 0 cs = some (ParseUint32 cs).1 := by
  cases cs with
  | nil => simp [ParseUint32] at h
  | cons c cs =>
    simp only [ParseUint32] at h ⊢
    exact ⟨by simp, parseUintLoop_value _ _ _ h⟩

theorem ParseUint32_accepts (cs : List Char) (v : Nat) (hne : cs ≠ [])
    (h : digitsVal 0 cs = some v) (hv : v ≤ 2 ^ 32 - 1) : ParseUint32 cs = (v, none) := by
  cases cs with
  | nil => exact absurd rfl hne
  | cons c cs =>
    simp only [ParseUint32]
    exact parseUintLoop_accepts _ (by decide) _ _ _ h hv

theorem ParseInt32_value (s : String) (h : (ParseInt32 s).2 = none) :
    intValue s = some (ParseInt32 s).1 := by
  unfold ParseInt32 at h ⊢
  unfold intValue
  cases hs : s.data with
  | nil => simp [hs] at h
  | cons c rest =>
    simp only [hs] at h ⊢
    generalize (if c = '+' ∨ c = '-' then rest else c :: rest) = body at h ⊢
    rcases ParseUint32_cases body with ⟨h0, _, _, _⟩ | hsyn | ⟨hr, hv⟩
    · obtain ⟨hne, hval⟩ := ParseUint32_value body h0
      cases body with
      | nil => exact absurd rfl hne
      | cons b bs =>
        simp only [hval, h0] at h ⊢
        by_cases hneg : c = '-'
        · by_cases hlt : 2147483648 < (ParseUint32 (b :: bs)).1
          · simp [hneg, hlt] at h
          · simp [hneg, hlt]
        · by_cases hlt : 2147483648 ≤ (ParseUint32 (b :: bs)).1
          · simp [hneg, hlt] at h
          · simp [hneg, hlt]
    · simp [hsyn] at h
    · simp only [hr, hv] at h
      by_cases hneg : c = '-' <;> simp [hneg] at h

theorem ParseInt32_accepts (s : String) (z : Int) (h : intValue s = some z)
    (hlo : -(2 ^ 31) ≤ z) (hhi : z < 2 ^ 31) : ParseInt32 s = (z, none) := by
  unfold intValue at h
  unfold ParseInt32
  cases hs : s.data with
  | nil => simp [hs] at h
  | cons c rest =>
    simp only [hs] at h ⊢
    generalize (if c = '+' ∨ c = '-' then rest else c :: rest) = body at h ⊢
    cases body with
    | nil => simp at h
    | cons b bs =>
      simp only at h
      cases hd : digitsVal 0 (b :: bs) with
      | none => simp [hd] at h
      | some v =>
        simp only [hd, Option.some.injEq] at h
        by_cases hneg : c = '-'
        · simp only [hneg, if_true] at h
          have hv : v ≤ 2 ^ 32 - 1 := by omega
          rw [ParseUint32_accepts (b :: bs) v (by simp) hd hv]
          have hlt : ¬ (2147483648 < v) := by omega
          simp [hneg, hlt, h]
        · simp only [hneg, if_false] at h
          have hv : v ≤ 2 ^ 32 - 1 := by omega
          rw [ParseUint32_accepts (b :: bs) v (by simp) hd hv]
          have hlt : ¬ (2147483648 ≤ v) := by omega
          simp [hneg, hlt, h]

theorem ParseInt32_rejects (s : String)
    (h : intValue s = none ∨ ∃ z, intValue s = some z ∧ (z < -(2 ^ 31) ∨ 2 ^ 31 ≤ z)) :
    (ParseInt32 s).2 ≠ none := by
  intro hnone
  have hv := ParseInt32_value s hnone
  have hr := (ParseInt32_ok s hnone).2
  rcases h with h | ⟨z, hz, hout⟩
  · rw [h] at hv
    cases hv
  · rw [hz] at hv
    have : z = (ParseInt32 s).1 := by simpa using hv
    omega

theorem digitVal_of_isDigit (c : Char) (h : c.isDigit = true) : ∃ d, digitVal c = some d := by
  unfold digitVal
  simp only [Char.isDigit, Bool.and_eq_true, decide_eq_true_eq] at h
  have hc : '0' ≤ c ∧ c ≤ '9' := h
  exact ⟨c.toNat - 48, by simp [hc]⟩

theorem digitsVal_of_all (cs : List Char) (n : Nat) (h : cs.all Char.isDigit = true) :
    ∃ v, digitsVal n cs = some v := by
  induction cs generalizing n with
  | nil => exact ⟨n, rfl⟩
  | cons c cs ih =>
    simp only [List.all_cons, Bool.and_eq_true] at h
    obtain ⟨d, hd⟩ := digitVal_of_isDigit c h.1
    obtain ⟨v, hv⟩ := ih (n * 10 + d) h.2
    exact ⟨v, by simp [digitsVal, hd, hv]⟩

theorem intValue_of_isBase10Integer (s : String) (h : isBase10Integer s = true) :
    ∃ z, intValue s = some z := by
  unfold isBase10Integer at h
  unfold intValue
  cases hs : s.data with
  | nil => simp [hs] at h
  | cons c rest =>
    simp only [hs] at h ⊢
    generalize (if c = '+' ∨ c = '-' then rest else c :: rest) = body at h ⊢
    cases body with
    | nil => simp at h
    | cons b bs =>
      simp only [Bool.and_eq_true] at h
      obtain ⟨v, hv⟩ := digitsVal_of_all (b :: bs) 0 h.2
      simp [hv]

theorem queryGet_missing (r : Request) (key : String) (h : ∀ kv ∈ r.query, kv.1 ≠ key) :
    r.queryGet key = "" := by
  have : r.query.find? (fun kv => decide (kv.1 = key)) = none := by
    simp only [List.find?_eq_none, decide_eq_true_eq]
    exact h
  simp [Request.queryGet, this]

theorem mul64_Millisecond (t : Int) (hlo : -(2 ^ 31) ≤ t) (hhi : t < 2 ^ 31) :
    mul64 Millisecond t = 1000000 * t := by
  unfold mul64 wrap64 Millisecond
  omega

/-- C6. Against a group, a `timeout` parameter that is missing or is not a base-10 integer is
answered with 400 and `ErrBadRequest`, and the group's `URLTest` is not invoked. -/
theorem getGroupDelay_bad_timeout (parse : RangeListParser) (URLTest : GroupOracle)
    (r : Request) (hg : r.proxy.group = true)
    (h : (∀ kv ∈ r.query, kv.1 ≠ "timeout") ∨ isBase10Integer (r.queryGet "timeout") = false) :
    getGroupDelay parse URLTest r = ({ status := 400, body := .ErrBadRequest }, []) := by
  have hnot : isBase10Integer (r.queryGet "timeout") = false := by
    rcases h with h | h
    · rw [queryGet_missing r "timeout" h]; rfl
    · exact h
  have herr : (ParseInt32 (r.queryGet "timeout")).2 ≠ none := by
    intro hnone
    have := (ParseInt32_ok _ hnone).1
    rw [hnot] at this
    cases this
  simp [getGroupDelay, hg, herr, StatusBadRequest]

/-- A group asked without `timeout`, and with the timeout `soon`. -/
theorem getGroupDelay_bad_timeout_witness :
    getGroupDelay NewIntRangeList slowGroup ⟨⟨"g", true⟩, [("url", "http://x")]⟩
      = ({ status := 400, body := .ErrBadRequest }, []) ∧
    getGroupDelay NewIntRangeList slowGroup
        ⟨⟨"g", true⟩, [("url", "http://x"), ("timeout", "soon")]⟩
      = ({ status := 400, body := .ErrBadRequest }, []) :=
  ⟨getGroupDelay_bad_timeout NewIntRangeList slowGroup ⟨⟨"g", true⟩, [("url", "http://x")]⟩
      rfl (Or.inl (by decide)),
   getGroupDelay_bad_timeout NewIntRangeList slowGroup
      ⟨⟨"g", true⟩, [("url", "http://x"), ("timeout", "soon")]⟩ rfl (Or.inr (by decide))⟩


theorem getGroupDelay_parsed (parse : RangeListParser) (URLTest : GroupOracle) (r : Request)
    (t : Int) (hg : r.proxy.group = true)
    (ht : ParseInt32 (r.queryGet "timeout") = (t, none)) :
    getGroupDelay parse URLTest r =
      ((match URLTest r.proxy (1000000 * t) (r.queryGet "url")
            (rangesOrEmpty parse (r.queryGet "statusCodeRange")) with
        | .error err => { status := 504, body := .newError err }
        | .ok dm => { status := 200, body := .delayMap dm }),
       [{ group := r.proxy, timeout := 1000000 * t, url := r.queryGet "url",
          ranges := rangesOrEmpty parse (r.queryGet "statusCodeRange") }]) := by
  have hnone : (ParseInt32 (r.queryGet "timeout")).2 = none := by rw [ht]
  have hb := ParseInt32_ok _ hnone
  rw [ht] at hb
  have hm := mul64_Millisecond t hb.2.1 hb.2.2
  simp only [getGroupDelay, hg, ht, hm, rangesOrEmpty, StatusGatewayTimeout, StatusOK]
  simp only [Bool.true_eq_false, if_false, ne_eq, not_true_eq_false]
  split <;> simp_all

/-- C7, as the code has it. Against a group, the `timeout` parameter has to be accepted by
`strconv.ParseInt(·, 10, 32)`. A timeout that is missing, is not a base-10 integer, or
denotes an integer outside the signed 32-bit range is answered with 400 and starts no round.
A timeout that denotes zero or a negative number (of 32 bits) is not rejected: the group's
`URLTest` is invoked once, under a context whose timeout of that many milliseconds is not
positive, and the response is the one the outcome of that round gives: 504 with the error's
message when the round ends with an error, 200 with the delay map otherwise. -/
theorem getGroupDelay_timeout_validation (parse : RangeListParser) (URLTest : GroupOracle)
    (r : Request) (hg : r.proxy.group = true) :
    (((∀ kv ∈ r.query, kv.1 ≠ "timeout") ∨
        isBase10Integer (r.queryGet "timeout") = false ∨
        ∃ z, intValue (r.queryGet "timeout") = some z ∧ (z < -(2 ^ 31) ∨ 2 ^ 31 ≤ z)) →
      getGroupDelay parse URLTest r = ({ status := 400, body := .ErrBadRequest }, [])) ∧
    (∀ z : Int, intValue (r.queryGet "timeout") = some z → -(2 ^ 31) ≤ z → z ≤ 0 →
      1000000 * z ≤ 0 ∧
      (getGroupDelay parse URLTest r).2 =
        [{ group := r.proxy, timeout := 1000000 * z, url := r.queryGet "url",
           ranges := rangesOrEmpty parse (r.queryGet "statusCodeRange") }] ∧
      (∀ err, URLTest r.proxy (1000000 * z) (r.queryGet "url")
          (rangesOrEmpty parse (r.queryGet "statusCodeRange")) = .error err →
        (getGroupDelay parse URLTest r).1 = { status := 504, body := .newError err }) ∧
      (∀ dm, URLTest r.proxy (1000000 * z) (r.queryGet "url")
          (rangesOrEmpty parse (r.queryGet "statusCodeRange")) = .ok dm →
        (getGroupDelay parse URLTest r).1 = { status := 200, body := .delayMap dm })) := by
  constructor
  · intro h
    have herr : (ParseInt32 (r.queryGet "timeout")).2 ≠ none := by
      rcases h with h | h | h
      · intro hnone
        have := (ParseInt32_ok _ hnone).1
        rw [queryGet_missing r "timeout" h] at this
        cases this
      · intro hnone
        have := (ParseInt32_ok _ hnone).1
        rw [h] at this
        cases this
      · exact ParseInt32_rejects _ (Or.inr h)
    simp [getGroupDelay, hg, herr, StatusBadRequest]
  · intro z hz hlo hneg
    have ht := ParseInt32_accepts (r.queryGet "timeout") z hz hlo (by omega)
    rw [getGroupDelay_parsed parse URLTest r z hg ht]
    refine ⟨by omega, rfl, ?_, ?_⟩
    · intro err h
      simp [h]
    · intro dm h
      simp [h]

/-- The timeout `-5` against a group whose round fails for lack of time: the round is started
with no time left and its error is answered with 504; the timeout `99999999999` is outside
32 bits and is answered with 400. -/
theorem getGroupDelay_timeout_validation_witness :
    (getGroupDelay NewIntRangeList slowGroup
        ⟨⟨"g", true⟩, [("url", "http://x"), ("timeout", "-5")]⟩).2
      = [{ group := ⟨"g", true⟩, timeout := 1000000 * (-5), url := "http://x", ranges := [] }] ∧
    (getGroupDelay NewIntRangeList slowGroup
        ⟨⟨"g", true⟩, [("url", "http://x"), ("timeout", "-5")]⟩).1
      = { status := 504, body := .newError "context deadline exceeded" } ∧
    getGroupDelay NewIntRangeList slowGroup
        ⟨⟨"g", true⟩, [("url", "http://x"), ("timeout", "99999999999")]⟩
      = ({ status := 400, body := .ErrBadRequest }, []) :=
  ⟨((getGroupDelay_timeout_validation NewIntRangeList slowGroup
      ⟨⟨"g", true⟩, [("url", "http://x"), ("timeout", "-5")]⟩ rfl).2 (-5) rfl
      (by decide) (by decide)).2.1,
   ((getGroupDelay_timeout_validation NewIntRangeList slowGroup
      ⟨⟨"g", true⟩, [("url", "http://x"), ("timeout", "-5")]⟩ rfl).2 (-5) rfl
      (by decide) (by decide)).2.2.1 "context deadline exceeded" rfl,
   (getGroupDelay_timeout_validation NewIntRangeList slowGroup
      ⟨⟨"g", true⟩, [("url", "http://x"), ("timeout", "99999999999")]⟩ rfl).1
      (Or.inr (Or.inr ⟨99999999999, rfl, Or.inr (by decide)⟩))⟩

/-- C7, as stated, fails. Against a group the timeouts `0` and `-5` start a round (the
group's `URLTest` is invoked) and the answer is the 504 of that round, whereas the
non-numeric timeout `soon` is answered with 400 and starts none. -/
theorem getGroupDelay_nonpositive_timeout_runs :
    getGroupDelay NewIntRangeList slowGroup
        ⟨⟨"g", true⟩, [("url", "http://x"), ("timeout", "0")]⟩
      = ({ status := 504, body := .newError "context deadline exceeded" },
         [{ group := ⟨"g", true⟩, timeout := 0, url := "http://x", ranges := [] }]) ∧
    getGroupDelay NewIntRangeList slowGroup
        ⟨⟨"g", true⟩, [("url", "http://x"), ("timeout", "-5")]⟩
      = ({ status := 504, body := .newError "context deadline exceeded" },
         [{ group := ⟨"g", true⟩, timeout := -5000000, url := "http://x", ranges := [] }]) ∧
    getGroupDelay NewIntRangeList slowGroup
        ⟨⟨"g", true⟩, [("url", "http://x"), ("timeout", "soon")]⟩
      = ({ status := 400, body := .ErrBadRequest }, []) := by
  refine ⟨?_, ?_, ?_⟩ <;> decide

/-- C8. Against a group, with a timeout that `strconv.ParseInt(·, 10, 32)` accepts as `t`,
`getGroupDelay` invokes the group's `URLTest` exactly once, under a context of `t`
milliseconds, with the `url` of the query and the parsed range list, which is empty when the
parser reports an error (and, with the parser of spec 4.1, when the parameter is absent).
An error of the round gives 504 with `newError` of its message; a round without error gives
200 with the delay map it returned. -/
theorem getGroupDelay_round (parse : RangeListParser) (URLTest : GroupOracle) (r : Request)
    (t : Int) (hg : r.proxy.group = true)
    (ht : ParseInt32 (r.queryGet "timeout") = (t, none)) :
    (getGroupDelay parse URLTest r).2 =
      [{ group := r.proxy, timeout := 1000000 * t, url := r.queryGet "url",
         ranges := rangesOrEmpty parse (r.queryGet "statusCodeRange") }] ∧
    (∀ err, URLTest r.proxy (1000000 * t) (r.queryGet "url")
        (rangesOrEmpty parse (r.queryGet "statusCodeRange")) = .error err →
      (getGroupDelay parse URLTest r).1 = { status := 504, body := .newError err }) ∧
    (∀ dm, URLTest r.proxy (1000000 * t) (r.queryGet "url")
        (rangesOrEmpty parse (r.queryGet "statusCodeRange")) = .ok dm →
      (getGroupDelay parse URLTest r).1 = { status := 200, body := .delayMap dm }) ∧
    (∀ rs, parse (Split (r.queryGet "statusCodeRange") '/') parseStatusCodeRangeError = .ok rs →
      rangesOrEmpty parse (r.queryGet "statusCodeRange") = rs) ∧
    (∀ e, parse (Split (r.queryGet "statusCodeRange") '/') parseStatusCodeRangeError
        = .error e →
      rangesOrEmpty parse (r.queryGet "statusCodeRange") = []) ∧
    ((∀ kv ∈ r.query, kv.1 ≠ "statusCodeRange") →
      rangesOrEmpty NewIntRangeList (r.queryGet "statusCodeRange") = []) := by
  rw [getGroupDelay_parsed parse URLTest r t hg ht]
  refine ⟨rfl, ?_, ?_, ?_, ?_, ?_⟩
  · intro err h; simp [h]
  · intro dm h; simp [h]
  · intro rs h; simp [rangesOrEmpty, h]
  · intro e h; simp [rangesOrEmpty, h]
  · intro h
    rw [queryGet_missing r "statusCodeRange" h]
    rfl

/-- A group asked with `timeout=50` and the ranges `200/300-399`. -/
theorem getGroupDelay_round_witness :
    (getGroupDelay NewIntRangeList slowGroup
        ⟨⟨"g", true⟩, [("url", "http://x"), ("timeout", "50"),
          ("statusCodeRange", "200/300-399")]⟩).2
      = [{ group := ⟨"g", true⟩, timeout := 1000000 * 50, url := "http://x",
           ranges := rangesOrEmpty NewIntRangeList "200/300-399" }] ∧
    rangesOrEmpty NewIntRangeList "200/300-399" = [⟨200, 200⟩, ⟨300, 399⟩] :=
  ⟨(getGroupDelay_round NewIntRangeList slowGroup
      ⟨⟨"g", true⟩, [("url", "http://x"), ("timeout", "50"),
        ("statusCodeRange", "200/300-399")]⟩ 50 rfl rfl).1, by decide⟩


/-! ## The debounce guard -/

theorem Do_cached {α σ : Type} (s : Single α) (t0 t1 : Nat) (fn : σ → Result α × σ) (st : σ)
    (r : Result α) (h : s.cachedAt t0 = some r) : s.Do t0 t1 fn st = ((r, true), s, st) := by
  simp [Single.Do, h]

theorem Do_expired {α σ : Type} (s : Single α) (t0 t1 : Nat) (fn : σ → Result α × σ) (st : σ)
    (h : s.cachedAt t0 = none) :
    s.Do t0 t1 fn st =
      (((fn st).1, false),
       { s with pending := none, cached := some ((fn st).1, t1 + s.wait) }, (fn st).2) := by
  simp [Single.Do, h]

theorem CheckSys.run_sys_nil (URLTest : ProbeOracle) (sys : CheckSys) :
    sys.run URLTest [] = sys := rfl

theorem CheckSys.run_sys_cons (URLTest : ProbeOracle) (sys : CheckSys) (e : CheckEv)
    (evs : List CheckEv) : sys.run URLTest (e :: evs) = (sys.step URLTest e).run URLTest evs :=
  rfl

theorem CheckSys.run_sys_append (URLTest : ProbeOracle) (sys : CheckSys)
    (xs ys : List CheckEv) :
    sys.run URLTest (xs ++ ys) = (sys.run URLTest xs).run URLTest ys := by
  simp [CheckSys.run, List.foldl_append]

theorem CheckSys.step_attach (URLTest : ProbeOracle) (sys : CheckSys) (c t : Nat)
    (ws : List Nat) (hp : sys.hc.singleDo.pending = some ws) :
    sys.step URLTest (.call c t) =
      { sys with
        hc := { sys.hc with singleDo := { sys.hc.singleDo with pending := some (ws ++ [c]) } } } := by
  simp [CheckSys.step, hp]

theorem CheckSys.step_served (URLTest : ProbeOracle) (sys : CheckSys) (c t : Nat)
    (r : Result Unit) (hp : sys.hc.singleDo.pending = none)
    (hc : sys.hc.singleDo.cachedAt t = some r) :
    sys.step URLTest (.call c t) = { sys with returned := sys.returned ++ [(c, r)] } := by
  simp [CheckSys.step, hp, HealthCheck.check, Do_cached _ _ _ _ _ r hc]

theorem CheckSys.step_start (URLTest : ProbeOracle) (sys : CheckSys) (c t : Nat)
    (hp : sys.hc.singleDo.pending = none) (hc : sys.hc.singleDo.cachedAt t = none) :
    sys.step URLTest (.call c t) =
      { sys with
        hc := { sys.hc with singleDo := { sys.hc.singleDo with pending := some [c] } }
        entered := t
        started := sys.started + 1
        executing := sys.executing + 1 } := by
  simp [CheckSys.step, hp, Do_expired _ _ _ _ _ hc]

theorem CheckSys.step_complete (URLTest : ProbeOracle) (sys : CheckSys) (t : Nat)
    (ws : List Nat) (hp : sys.hc.singleDo.pending = some ws)
    (hc : sys.hc.singleDo.cachedAt sys.entered = none) :
    sys.step URLTest (.complete t) =
      { hc := (sys.hc.check URLTest sys.entered t sys.probes).1
        probes := (sys.hc.check URLTest sys.entered t sys.probes).2
        entered := sys.entered
        started := sys.started
        executing := sys.executing - 1
        returned := sys.returned ++ ws.map (fun c => (c, (sys.hc.round URLTest sys.probes).1)) } := by
  simp [CheckSys.step, hp, Do_expired _ _ _ _ _ hc]

theorem CheckSys.step_complete_idle (URLTest : ProbeOracle) (sys : CheckSys) (t : Nat)
    (hp : sys.hc.singleDo.pending = none) : sys.step URLTest (.complete t) = sys := by
  simp [CheckSys.step, hp]

theorem CheckSys.step_coherent (URLTest : ProbeOracle) (sys : CheckSys) (e : CheckEv)
    (h : sys.coherent) : (sys.step URLTest e).coherent := by
  unfold CheckSys.coherent at h
  cases hp : sys.hc.singleDo.pending with
  | some ws =>
    rw [hp] at h
    cases e with
    | call c t =>
      rw [CheckSys.step_attach URLTest sys c t ws hp]
      simpa [CheckSys.coherent, Single.cachedAt] using h
    | complete t =>
      rw [CheckSys.step_complete URLTest sys t ws hp h.2]
      simp [CheckSys.coherent, HealthCheck.check, Do_expired _ _ _ _ _ h.2, h.1]
  | none =>
    rw [hp] at h
    cases e with
    | call c t =>
      cases hc : sys.hc.singleDo.cachedAt t with
      | some r =>
        rw [CheckSys.step_served URLTest sys c t r hp hc]
        simpa [CheckSys.coherent, hp] using h
      | none =>
        rw [CheckSys.step_start URLTest sys c t hp hc]
        simp only [CheckSys.coherent]
        exact ⟨by omega, by simpa [Single.cachedAt] using hc⟩
    | complete t =>
      rw [CheckSys.step_complete_idle URLTest sys t hp]
      simpa [CheckSys.coherent, hp] using h

theorem CheckSys.run_coherent (URLTest : ProbeOracle) (evs : List CheckEv) (sys : CheckSys)
    (h : sys.coherent) : (sys.run URLTest evs).coherent := by
  induction evs generalizing sys with
  | nil => exact h
  | cons e evs ih => exact ih _ (CheckSys.step_coherent URLTest sys e h)

theorem CheckSys.coherent_le_one (sys : CheckSys) (h : sys.coherent) : sys.executing ≤ 1 := by
  unfold CheckSys.coherent at h
  split at h
  · omega
  · omega

theorem CheckSys.run_attach (URLTest : ProbeOracle) (pre : List (Nat × Nat)) (sys : CheckSys)
    (ws : List Nat) (hp : sys.hc.singleDo.pending = some ws) :
    sys.run URLTest (pre.map (fun p => CheckEv.call p.1 p.2)) =
      { sys with
        hc := { sys.hc with
          singleDo := { sys.hc.singleDo with pending := some (ws ++ pre.map Prod.fst) } } } := by
  induction pre generalizing sys ws with
  | nil =>
    simp only [List.map_nil, CheckSys.run_sys_nil, List.append_nil]
    rw [← hp]
  | cons p pre ih =>
    simp only [List.map_cons, CheckSys.run_sys_cons]
    rw [CheckSys.step_attach URLTest sys p.1 p.2 ws hp, ih _ (ws ++ [p.1]) rfl]
    simp

theorem CheckSys.run_served (URLTest : ProbeOracle) (post : List (Nat × Nat)) (sys : CheckSys)
    (r : Result Unit) (e : Nat) (hp : sys.hc.singleDo.pending = none)
    (hc : sys.hc.singleDo.cached = some (r, e)) (hw : ∀ p ∈ post, p.2 < e) :
    sys.run URLTest (post.map (fun p => CheckEv.call p.1 p.2)) =
      { sys with returned := sys.returned ++ post.map (fun p => (p.1, r)) } := by
  induction post generalizing sys with
  | nil => simp [CheckSys.run_sys_nil]
  | cons p post ih =>
    have h1 : sys.hc.singleDo.cachedAt p.2 = some r := by
      simp [Single.cachedAt, hc, hw p (List.mem_cons_self _ _)]
    simp only [List.map_cons, CheckSys.run_sys_cons]
    rw [CheckSys.step_served URLTest sys p.1 p.2 r hp h1,
      ih ⟨sys.hc, sys.probes, sys.entered, sys.started, sys.executing,
        sys.returned ++ [(p.1, r)]⟩ hp hc (fun q hq => hw q (List.mem_cons_of_mem _ hq))]
    simp

theorem check_expired (URLTest : ProbeOracle) (hc : HealthCheck) (t0 t1 : Nat)
    (log : List ProbeRecord) (h : hc.singleDo.cachedAt t0 = none) :
    hc.check URLTest t0 t1 log =
      ({ hc with
          singleDo :=
            { hc.singleDo with
              pending := none
              cached := some ((hc.round URLTest log).1, t1 + hc.singleDo.wait) } },
       (hc.round URLTest log).2) := by
  simp [HealthCheck.check, Do_expired _ _ _ _ _ h]

theorem round_log (URLTest : ProbeOracle) (hc : HealthCheck) (log : List ProbeRecord) :
    (hc.round URLTest log).2 = log ++ hc.proxies.map (hc.probeOf URLTest) := by
  simp [HealthCheck.round, submitAll_log]

theorem submitAll_congr (URLTest : ProbeOracle) (hc hc2 : HealthCheck) (hu : hc2.url = hc.url)
    (hr : hc2.statusCodeRange = hc.statusCodeRange) (ps : List Proxy)
    (acc : Batch Bool × List ProbeRecord) :
    hc2.submitAll URLTest ps acc = hc.submitAll URLTest ps acc := by
  induction ps generalizing acc with
  | nil => rfl
  | cons p ps ih =>
    simp only [HealthCheck.submitAll, ih, HealthCheck.probeTask, Batch.Go, hu, hr]

theorem round_congr (URLTest : ProbeOracle) (hc hc2 : HealthCheck) (hu : hc2.url = hc.url)
    (hp : hc2.proxies = hc.proxies) (hr : hc2.statusCodeRange = hc.statusCodeRange)
    (log : List ProbeRecord) : hc2.round URLTest log = hc.round URLTest log := by
  simp only [HealthCheck.round, hp, submitAll_congr URLTest hc hc2 hu hr]

theorem CheckSys.run_burst (URLTest : ProbeOracle) (hc : HealthCheck) (log : List ProbeRecord)
    (c0 t0 t1 : Nat) (pre post : List (Nat × Nat)) (hidle : hc.singleDo.pending = none)
    (hexp : hc.singleDo.cachedAt t0 = none)
    (hpost : ∀ p ∈ post, p.2 < t1 + hc.singleDo.wait) :
    (CheckSys.init hc log).run URLTest (burst c0 t0 pre t1 post) =
      { hc := (hc.check URLTest t0 t1 log).1
        probes := log ++ hc.proxies.map (hc.probeOf URLTest)
        entered := t0
        started := 1
        executing := 0
        returned := (c0 :: pre.map Prod.fst ++ post.map Prod.fst).map
          (fun c => (c, (hc.round URLTest log).1)) } := by
  unfold burst
  rw [List.cons_append, CheckSys.run_sys_cons, CheckSys.run_sys_append,
    CheckSys.step_start URLTest _ c0 t0 hidle hexp, CheckSys.run_attach URLTest pre _ [c0] rfl,
    CheckSys.run_sys_cons,
    CheckSys.step_complete URLTest _ t1 ([c0] ++ pre.map Prod.fst) rfl
      (by simpa [CheckSys.init, Single.cachedAt] using hexp)]
  have hck : ∀ (ws : List Nat),
      ({ hc with singleDo := { hc.singleDo with pending := some ws } } : HealthCheck).check
          URLTest t0 t1 log = hc.check URLTest t0 t1 log := by
    intro ws
    have hr := round_congr URLTest hc
      { hc with singleDo := { hc.singleDo with pending := some ws } } rfl rfl rfl log
    rw [check_expired URLTest hc t0 t1 log hexp,
      check_expired URLTest _ t0 t1 log (by simpa [Single.cachedAt] using hexp), hr]
  simp only [CheckSys.init]
  rw [CheckSys.run_served URLTest post _ (hc.round URLTest log).1 (t1 + hc.singleDo.wait)
    (by simp [hck, check_expired URLTest hc t0 t1 log hexp])
    (by simp [hck, check_expired URLTest hc t0 t1 log hexp]) hpost]
  simp only [hck, check_expired URLTest hc t0 t1 log hexp, round_log]
  simp [List.map_append, HealthCheck.round]

/-- C2 (against the guard of spec 4.2). Let `n ≥ 1` goroutines call `check` on one health
check: a first one at `t0` that finds no round in flight and the cache expired, calls
arriving while the round is in flight, and calls arriving after the round has completed at
`t1` but before the window `wait` has ended. Then exactly one round is started, its probes
are the only ones sent (one per proxy), at no point of the burst is more than one round
executing, none is executing at the end, the health check is left as by the one call of
`check` that ran the round, and every one of the `n` callers returns with the outcome of
that round. -/
theorem check_burst_single_round (URLTest : ProbeOracle) (hc : HealthCheck)
    (log : List ProbeRecord) (c0 t0 t1 : Nat) (pre post : List (Nat × Nat))
    (hidle : hc.singleDo.pending = none) (hexp : hc.singleDo.cachedAt t0 = none)
    (hpost : ∀ p ∈ post, p.2 < t1 + hc.singleDo.wait) :
    ((CheckSys.init hc log).run URLTest (burst c0 t0 pre t1 post)).started = 1 ∧
    ((CheckSys.init hc log).run URLTest (burst c0 t0 pre t1 post)).executing = 0 ∧
    ((CheckSys.init hc log).run URLTest (burst c0 t0 pre t1 post)).probes
      = log ++ hc.proxies.map (hc.probeOf URLTest) ∧
    ((CheckSys.init hc log).run URLTest (burst c0 t0 pre t1 post)).hc
      = (hc.check URLTest t0 t1 log).1 ∧
    ((CheckSys.init hc log).run URLTest (burst c0 t0 pre t1 post)).returned
      = (c0 :: pre.map Prod.fst ++ post.map Prod.fst).map
          (fun c => (c, (hc.round URLTest log).1)) ∧
    ((CheckSys.init hc log).run URLTest (burst c0 t0 pre t1 post)).returned.length
      = 1 + pre.length + post.length ∧
    (∀ k, ((CheckSys.init hc log).run URLTest
      ((burst c0 t0 pre t1 post).take k)).executing ≤ 1) := by
  rw [CheckSys.run_burst URLTest hc log c0 t0 t1 pre post hidle hexp hpost]
  refine ⟨rfl, rfl, rfl, rfl, rfl, ?_, ?_⟩
  · simp only [List.length_map, List.length_cons, List.length_append]
    omega
  · intro k
    apply CheckSys.coherent_le_one
    apply CheckSys.run_coherent
    simp [CheckSys.coherent, CheckSys.init, hidle]

/-- Four goroutines call `check` on a fresh health check (window of one second): caller 0 at
instant 0, callers 1 and 2 while the round runs, caller 3 just before the window ends
after the round completed at 5000. One round runs, two probes are sent, and the four callers
return with its outcome. -/
theorem check_burst_single_round_witness :
    twoProxies.singleDo.wait = 1000000000 ∧
    ((CheckSys.init twoProxies []).run deadA
      (burst 0 0 [(1, 10), (2, 20)] 5000 [(3, 1000004999)])).started = 1 ∧
    ((CheckSys.init twoProxies []).run deadA
      (burst 0 0 [(1, 10), (2, 20)] 5000 [(3, 1000004999)])).probes
      = [] ++ twoProxies.proxies.map (twoProxies.probeOf deadA) ∧
    ((CheckSys.init twoProxies []).run deadA
      (burst 0 0 [(1, 10), (2, 20)] 5000 [(3, 1000004999)])).returned
      = [(0, ((), none)), (1, ((), none)), (2, ((), none)), (3, ((), none))] :=
  ⟨rfl,
   (check_burst_single_round deadA twoProxies [] 0 0 5000 [(1, 10), (2, 20)]
      [(3, 1000004999)] rfl rfl (by decide)).1,
   (check_burst_single_round deadA twoProxies [] 0 0 5000 [(1, 10), (2, 20)]
      [(3, 1000004999)] rfl rfl (by decide)).2.2.1,
   (check_burst_single_round deadA twoProxies [] 0 0 5000 [(1, 10), (2, 20)]
      [(3, 1000004999)] rfl rfl (by decide)).2.2.2.2.1⟩

/-! ## The scheduler loop -/

theorem due_iff (hc : HealthCheck) (now : Int) (hint : hc.interval < 2 ^ 63)
    (hlo : -(2 ^ 63) ≤ now - hc.lastTouch) (hhi : now - hc.lastTouch < 2 ^ 63) :
    hc.due now = true ↔ (hc.lazy = false ∨ now - hc.lastTouch < (hc.interval : Int)) := by
  have h1 : sub64 now hc.lastTouch = now - hc.lastTouch := by
    unfold sub64 wrap64
    omega
  have h2 : int64OfUint hc.interval = (hc.interval : Int) := by
    unfold int64OfUint wrap64
    omega
  unfold HealthCheck.due
  rw [h1, h2]
  cases hc.lazy <;> simp

theorem step_tick (URLTest : ProbeOracle) (w : World) (tk : Ticker) (now : Int) (t0 t1 : Nat)
    (hloop : w.loop = .scheduled) (htk : w.ticker = some tk) (hC : 0 < tk.C) :
    w.step URLTest (.tick now t0 t1) =
      some (World.processTick URLTest { w with ticker := some { tk with C := tk.C - 1 } }
        now t0 t1) := by
  simp only [World.step, htk, hloop, hC, and_self, if_true]

/-- C1, as the code has it. In a running scheduler loop whose interval is below `2^63` (so
that `int64(hc.interval)` is the interval), on a tick read at Unix time `now` with
`now - lastTouch` inside `int64`: the loop calls `check` if and only if `lazy` is false or
`now - lastTouch < interval`; when it does, the health check and the probe log are those
`check` leaves; otherwise the tick is skipped and neither the health check nor the log nor
the loop changes. -/
theorem process_tick_decision (URLTest : ProbeOracle) (w : World) (tk : Ticker) (now : Int)
    (t0 t1 : Nat) (hloop : w.loop = .scheduled) (htk : w.ticker = some tk) (hC : 0 < tk.C)
    (hint : w.hc.interval < 2 ^ 63)
    (hlo : -(2 ^ 63) ≤ now - w.hc.lastTouch) (hhi : now - w.hc.lastTouch < 2 ^ 63) :
    ∃ w1, w.step URLTest (.tick now t0 t1) = some w1 ∧
      (w1.checks = w.checks + 1 ↔
        (w.hc.lazy = false ∨ now - w.hc.lastTouch < (w.hc.interval : Int))) ∧
      ((w.hc.lazy = false ∨ now - w.hc.lastTouch < (w.hc.interval : Int)) →
        w1.hc = (w.hc.check URLTest t0 t1 w.probes).1 ∧
        w1.probes = (w.hc.check URLTest t0 t1 w.probes).2) ∧
      (¬ (w.hc.lazy = false ∨ now - w.hc.lastTouch < (w.hc.interval : Int)) →
        w1.hc = w.hc ∧ w1.checks = w.checks ∧ w1.probes = w.probes ∧ w1.loop = w.loop) := by
  have hd := due_iff w.hc now hint hlo hhi
  by_cases hdue : w.hc.due now = true
  · refine ⟨_, step_tick URLTest w tk now t0 t1 hloop htk hC, ?_, ?_, ?_⟩
    · simp [World.processTick, hdue, hd.mp hdue]
    · intro _
      simp [World.processTick, hdue]
    · intro hn
      exact absurd (hd.mp hdue) hn
  · refine ⟨_, step_tick URLTest w tk now t0 t1 hloop htk hC, ?_, ?_, ?_⟩
    · have hn : ¬ (w.hc.lazy = false ∨ now - w.hc.lastTouch < (w.hc.interval : Int)) :=
        fun h => hdue (hd.mpr h)
      simp [World.processTick, hdue, hn]
    · intro h
      exact absurd (hd.mpr h) hdue
    · intro _
      simp [World.processTick, hdue, hloop]

/-- The lazy-mode example: interval 10, lazy, touched at `t = 1700000000`. A tick at `t + 3`
calls `check` (the count of calls goes from 0 to 1), a tick at `t + 15` is skipped. -/
theorem process_tick_decision_witness :
    (∃ w1, lazyTenWorld.step deadA (.tick 1700000003 0 7) = some w1 ∧ w1.checks = 1) ∧
    (∃ w1, lazyTenWorld.step deadA (.tick 1700000015 0 7) = some w1 ∧ w1.checks = 0 ∧
      w1.hc = lazyTenWorld.hc ∧ w1.probes = []) := by
  constructor
  · obtain ⟨w1, h1, h2, _, _⟩ :=
      process_tick_decision deadA lazyTenWorld ⟨10000000000, 1, false⟩ 1700000003 0 7
        (by decide) (by decide) (by decide) (by decide) (by decide) (by decide)
    exact ⟨w1, h1, h2.mpr (Or.inr (by decide))⟩
  · obtain ⟨w1, h1, _, _, h4⟩ :=
      process_tick_decision deadA lazyTenWorld ⟨10000000000, 1, false⟩ 1700000015 0 7
        (by decide) (by decide) (by decide) (by decide) (by decide) (by decide)
    have h := h4 (by decide)
    exact ⟨w1, h1, h.2.1, h.1, h.2.2.1⟩

/-- C1, as stated, fails. A lazy health check with the interval `2^63 + 1`: its scheduler
runs (the ticker period wraps to one second), and on a tick at the very second of the last
touch `now - lastTouch = 0 < interval`, yet `int64(interval)` is negative and the tick is
skipped: `check` is not called. -/
theorem process_tick_interval_wraps :
    wrappedWorld.loop = .scheduled ∧
    wrappedWorld.ticker = some ⟨1000000000, 1, false⟩ ∧
    wrappedWorld.hc.lazy = true ∧
    0 < wrappedWorld.hc.interval ∧
    (1700000000 : Int) - wrappedWorld.hc.lastTouch < (wrappedWorld.hc.interval : Int) ∧
    int64OfUint wrappedWorld.hc.interval = -9223372036854775807 ∧
    wrappedWorld.step deadA (.tick 1700000000 0 7)
      = some { wrappedWorld with ticker := some ⟨1000000000, 0, false⟩ } ∧
    wrappedWorld.checks = 0 ∧
    (wrappedWorld.step deadA (.tick 1700000000 0 7)).map World.checks = some 0 := by
  refine ⟨?_, ?_, ?_, ?_, ?_, ?_, ?_, ?_, ?_⟩ <;> decide


theorem World.run_world_nil (URLTest : ProbeOracle) (w : World) : w.run URLTest [] = w := rfl

theorem World.run_world_cons (URLTest : ProbeOracle) (w : World) (e : Ev) (evs : List Ev) :
    w.run URLTest (e :: evs) = ((w.step URLTest e).getD w).run URLTest evs := rfl

theorem step_closed (URLTest : ProbeOracle) (w : World) (e : Ev) (h : w.isClosed) :
    ((w.step URLTest e).getD w).isClosed ∧
    ((w.step URLTest e).getD w).checks = w.checks ∧
    ((w.step URLTest e).getD w).probes = w.probes := by
  obtain ⟨hl, ht⟩ := h
  cases e with
  | start => simpa [World.step, hl, World.isClosed] using ht
  | fire =>
    cases htk : w.ticker with
    | none => simp [World.step, htk, World.isClosed, hl]
    | some tk => simp [World.step, htk, ht tk htk, World.isClosed, hl]
  | tick now t0 t1 =>
    cases htk : w.ticker with
    | none => simp [World.step, htk, World.isClosed, hl]
    | some tk => simp [World.step, htk, ht tk htk, World.isClosed, hl]
  | stop => simpa [World.step, hl, World.isClosed] using ht
  | close =>
    by_cases hd : w.hc.done < doneCap
    · simpa [World.step, HealthCheck.close, hd, World.isClosed, hl] using ht
    · simpa [World.step, HealthCheck.close, hd, World.isClosed, hl] using ht
  | touch now => simpa [World.step, World.isClosed, hl] using ht
  | setProxy ps => simpa [World.step, World.isClosed, hl] using ht

theorem run_closed (URLTest : ProbeOracle) (evs : List Ev) (w : World) (h : w.isClosed) :
    (w.run URLTest evs).isClosed ∧ (w.run URLTest evs).checks = w.checks ∧
    (w.run URLTest evs).probes = w.probes := by
  induction evs generalizing w with
  | nil => exact ⟨h, rfl, rfl⟩
  | cons e evs ih =>
    have hs := step_closed URLTest w e h
    have hr := ih _ hs.1
    rw [World.run_world_cons]
    exact ⟨hr.1, hr.2.1.trans hs.2.1, hr.2.2.trans hs.2.2⟩

theorem closed_disabled (URLTest : ProbeOracle) (w : World) (h : w.isClosed) :
    (∀ now t0 t1, w.step URLTest (.tick now t0 t1) = none) ∧
    w.step URLTest .fire = none ∧ w.step URLTest .start = none ∧
    w.step URLTest .stop = none := by
  obtain ⟨hl, ht⟩ := h
  refine ⟨?_, ?_, ?_, ?_⟩
  · intro now t0 t1
    cases htk : w.ticker with
    | none => simp [World.step, htk]
    | some tk => simp [World.step, htk, hl]
  · cases htk : w.ticker with
    | none => simp [World.step, htk]
    | some tk => simp [World.step, htk, ht tk htk]
  · simp [World.step, hl]
  · simp [World.step, hl]

/-- C9, as the code has it. In a running scheduler loop with a stop signal waiting in `done`,
the loop can take the signal; when it does it stops the ticker and returns without calling
`check`. From then on, whatever happens (ticks that would fire, touches, further calls of
`close`), the loop stays closed, no tick is delivered or processed, `check` is not called
again by the loop and no probe is sent by it: the loop cannot be started or scheduled
again. -/
theorem process_closed_is_final (URLTest : ProbeOracle) (w : World)
    (hloop : w.loop = .scheduled) (hdone : 0 < w.hc.done) :
    ∃ w1, w.step URLTest .stop = some w1 ∧
      w1.loop = .closed ∧ (∀ tk, w1.ticker = some tk → tk.stopped = true) ∧
      w1.checks = w.checks ∧ w1.probes = w.probes ∧
      ∀ evs : List Ev,
        (w1.run URLTest evs).loop = .closed ∧
        (w1.run URLTest evs).checks = w.checks ∧
        (w1.run URLTest evs).probes = w.probes ∧
        (∀ now t0 t1, (w1.run URLTest evs).step URLTest (.tick now t0 t1) = none) ∧
        (w1.run URLTest evs).step URLTest .fire = none ∧
        (w1.run URLTest evs).step URLTest .start = none := by
  have hc : (World.processDone { w with hc := { w.hc with done := w.hc.done - 1 } }).isClosed := by
    refine ⟨rfl, ?_⟩
    intro tk htk
    simp only [World.processDone, Option.map_eq_some'] at htk
    obtain ⟨a, _, ha⟩ := htk
    rw [← ha]
  refine ⟨_, by simp only [World.step, hloop, hdone, and_self, if_true], hc.1, hc.2, rfl, rfl, ?_⟩
  intro evs
  have hr := run_closed URLTest evs _ hc
  have hdis := closed_disabled URLTest _ hr.1
  exact ⟨hr.1.1, hr.2.1, hr.2.2, hdis.1, hdis.2.1, hdis.2.2.1⟩

/-- After `close()` the loop takes the signal; later ticks, fired or not, change nothing. -/
theorem process_closed_is_final_witness :
    ∃ w1, closingWorld.step deadA .stop = some w1 ∧ w1.loop = .closed ∧
      (w1.run deadA [.fire, .tick 1700000000 0 7, .fire, .tick 1700000010 0 7]).checks = 0 := by
  obtain ⟨w1, h1, h2, _, _, _, h6⟩ :=
    process_closed_is_final deadA closingWorld (by decide) (by decide)
  exact ⟨w1, h1, h2, (h6 _).2.1⟩

/-- C9, as stated, fails. `close()` has been invoked and has returned (its signal waits in
`done`) while a tick waits in `ticker.C`: the `select` of the loop, free to take either,
takes the tick, and a probe round is started after `close()`. -/
theorem process_round_after_close :
    closingWorld.hc.done = 1 ∧ closingWorld.loop = .scheduled ∧
    closingWorld.checks = 0 ∧ closingWorld.probes = [] ∧
    ((closingWorld.step deadA (.tick 1700000000 0 7)).map World.checks) = some 1 ∧
    ((closingWorld.step deadA (.tick 1700000000 0 7)).map (fun w => w.probes.length))
      = some 2 := by
  refine ⟨?_, ?_, ?_, ?_, ?_, ?_⟩ <;> decide

theorem step_stuck (URLTest : ProbeOracle) (w : World) (e : Ev) (h : w.isStuck) :
    ((w.step URLTest e).getD w).isStuck := by
  obtain ⟨hi, hd, ht, hl⟩ := h
  cases e with
  | start =>
    rcases hl with hl | hl
    · have : mul64 (int64OfUint 0) Second = 0 := by decide
      simp [World.step, hl, World.processStart, hi, this, World.isStuck, hd, ht]
    · simp [World.step, hl, World.isStuck, hi, hd, ht]
  | fire => simp [World.step, ht, World.isStuck, hi, hd, hl]
  | tick now t0 t1 => simp [World.step, ht, World.isStuck, hi, hd, hl]
  | stop => rcases hl with hl | hl <;> simp [World.step, hl, World.isStuck, hi, hd, ht]
  | close => simp [World.step, HealthCheck.close, hd, doneCap, World.isStuck, hi, ht, hl]
  | touch now => simp [World.step, World.isStuck, HealthCheck.touch, hi, hd, ht, hl]
  | setProxy ps => simp [World.step, World.isStuck, HealthCheck.setProxy, hi, hd, ht, hl]

theorem run_stuck (URLTest : ProbeOracle) (evs : List Ev) (w : World) (h : w.isStuck) :
    (w.run URLTest evs).isStuck := by
  induction evs generalizing w with
  | nil => exact h
  | cons e evs ih =>
    rw [World.run_world_cons]
    exact ih _ (step_stuck URLTest w e h)

theorem step_closed_full (URLTest : ProbeOracle) (w : World) (e : Ev) (h : w.isClosed)
    (hd : w.hc.done = 1) : ((w.step URLTest e).getD w).hc.done = 1 := by
  obtain ⟨hl, ht⟩ := h
  cases e with
  | start => simpa [World.step, hl] using hd
  | fire =>
    cases htk : w.ticker with
    | none => simpa [World.step, htk] using hd
    | some tk => simpa [World.step, htk, ht tk htk] using hd
  | tick now t0 t1 =>
    cases htk : w.ticker with
    | none => simpa [World.step, htk] using hd
    | some tk => simpa [World.step, htk, hl] using hd
  | stop => simpa [World.step, hl] using hd
  | close => simp [World.step, HealthCheck.close, hd, doneCap]
  | touch now => simpa [World.step, HealthCheck.touch] using hd
  | setProxy ps => simpa [World.step, HealthCheck.setProxy] using hd

theorem run_closed_full (URLTest : ProbeOracle) (evs : List Ev) (w : World) (h : w.isClosed)
    (hd : w.hc.done = 1) : (w.run URLTest evs).hc.done = 1 := by
  induction evs generalizing w with
  | nil => exact hd
  | cons e evs ih =>
    rw [World.run_world_cons]
    exact ih _ (step_closed URLTest w e h).1 (step_closed_full URLTest w e h hd)

/-- C10, as the code has it. `close()` is call-once. On a freshly built health check the
first `close()` never blocks, whatever the interval: the one-slot buffer of `done` takes the
signal. A second `close()` is not guarded. On a health check without scheduler
(`interval = 0`) it blocks, and whatever else happens it stays blocked, since nothing ever
receives from `done`. On a running loop that has taken the first signal it goes through, but
it leaves in the buffer a signal that nothing will receive, so the instance is not in the
state the first call left, and every later `close()` blocks for good. -/
theorem close_is_call_once (parse : RangeListParser) (URLTest : ProbeOracle)
    (proxies : List Proxy) (url : String) (interval : Nat) (lazy : Bool) (spec : String)
    (evs : List Ev) :
    (∃ w1, (World.init (NewHealthCheck parse proxies url interval lazy spec)).step URLTest
        .close = some w1 ∧ w1.hc.done = 1) ∧
    (∃ w1, (World.init (NewHealthCheck parse proxies url 0 lazy spec)).step URLTest .close
        = some w1 ∧
      w1.hc.done = 1 ∧
      (w1.run URLTest evs).hc.done = 1 ∧
      (w1.run URLTest evs).step URLTest .close = none ∧
      (w1.run URLTest evs).step URLTest .stop = none) ∧
    (∀ w : World, w.loop = .scheduled → w.hc.done = 0 →
      ∃ w1 w2 w3, w.step URLTest .close = some w1 ∧
        w1.step URLTest .stop = some w2 ∧ w2.loop = .closed ∧ w2.hc.done = 0 ∧
        w2.step URLTest .close = some w3 ∧ w3.loop = .closed ∧ w3.hc.done = 1 ∧
        (w3.run URLTest evs).step URLTest .close = none) := by
  refine ⟨?_, ?_, ?_⟩
  · exact ⟨{ World.init (NewHealthCheck parse proxies url interval lazy spec) with
        hc := { NewHealthCheck parse proxies url interval lazy spec with done := 0 + 1 } },
      by simp [World.step, HealthCheck.close, World.init, NewHealthCheck, doneCap], rfl⟩
  · have hs : World.isStuck
        { World.init (NewHealthCheck parse proxies url 0 lazy spec) with
          hc := { NewHealthCheck parse proxies url 0 lazy spec with done := 0 + 1 } } :=
      ⟨rfl, rfl, rfl, Or.inl rfl⟩
    refine ⟨{ World.init (NewHealthCheck parse proxies url 0 lazy spec) with
        hc := { NewHealthCheck parse proxies url 0 lazy spec with done := 0 + 1 } }, ?_, rfl, ?_⟩
    · simp [World.step, HealthCheck.close, World.init, NewHealthCheck, doneCap]
    obtain ⟨_, hd, _, hl⟩ := run_stuck URLTest evs _ hs
    refine ⟨hd, ?_, ?_⟩
    · simp [World.step, HealthCheck.close, hd, doneCap]
    · rcases hl with hl | hl <;> simp [World.step, hl]
  · intro w hloop hdone
    have hc3 : World.isClosed
        { (World.processDone { w with hc := { w.hc with done := 0 } }) with
          hc := { w.hc with done := 1 } } := by
      refine ⟨rfl, ?_⟩
      intro tk htk
      simp only [World.processDone, Option.map_eq_some'] at htk
      obtain ⟨a, _, ha⟩ := htk
      rw [← ha]
    refine ⟨{ w with hc := { w.hc with done := 1 } },
      World.processDone { w with hc := { w.hc with done := 0 } },
      { (World.processDone { w with hc := { w.hc with done := 0 } }) with
        hc := { w.hc with done := 1 } }, ?_, ?_, rfl, rfl, ?_, rfl, rfl, ?_⟩
    · simp [World.step, HealthCheck.close, hdone, doneCap]
    · simp [World.step, hloop]
    · simp [World.step, HealthCheck.close, World.processDone, doneCap]
    · have hd := run_closed_full URLTest evs _ hc3 rfl
      simp [World.step, HealthCheck.close, hd, doneCap]

/-- A running scheduler: the first `close()` is taken by the loop, the second goes through
and leaves its signal in the buffer, and a third is blocked even after further events. -/
theorem close_is_call_once_witness :
    ∃ w1 w2 w3, runningWorld.step deadA .close = some w1 ∧
      w1.step deadA .stop = some w2 ∧ w2.loop = .closed ∧ w2.hc.done = 0 ∧
      w2.step deadA .close = some w3 ∧ w3.loop = .closed ∧ w3.hc.done = 1 ∧
      (w3.run deadA [.fire, .stop, .touch 1700000000]).step deadA .close = none :=
  (close_is_call_once NewIntRangeList deadA [] "http://x" 10 false "200"
    [.fire, .stop, .touch 1700000000]).2.2 runningWorld (by decide) (by decide)

/-- C10, as stated, fails. On a health check built with `interval = 0` the first `close()`
goes through and fills the buffer of `done`; the second `close()` is neither rejected nor a
no-op: its send cannot proceed, also after other events (a touch, an attempt to start
the scheduler, which panics on the zero interval), because nothing receives from `done`. -/
theorem close_second_call_blocks :
    noScheduler.auto = false ∧
    (World.init noScheduler).step deadA .close = some closedOnce ∧
    closedOnce.hc.done = 1 ∧
    closedOnce.step deadA .close = none ∧
    closedOnce.step deadA .stop = none ∧
    (closedOnce.run deadA [.touch 1700000000, .start, .fire, .stop]).step deadA .close
      = none := by
  refine ⟨?_, ?_, ?_, ?_, ?_, ?_⟩ <;> decide

end Clash
